import Mathlib

/-!
Verification of the NMR spectrum data-layout and transform engine
(file src/pocketchemist_nmr/spectra/nmr_spectrum.py).

The tensor data model is embedded shallowly: a tensor is a rank, a size
function giving the length of every axis, and a value function on
multi-indices (functions from axis number to coordinate).  Only the
coordinates below the rank and the indices whose coordinates are below the
axis sizes are meaningful; tensor equality is therefore stated as TEq,
extensional equality on valid indices.

The four layout-codec functions, the enumerated constants and the error
taxonomy come from modules of the repository that are only declared here
(spectra/constants.py, spectra/utils.py and the format subclasses); they
are modelled from the spec where so noted.
-/

/-- Modelled from the spec: the DomainType enumeration of
spectra/constants.py (time or frequency domain member per dimension). -/
inductive DomainType where
  | TIME : DomainType
  | FREQ : DomainType
deriving DecidableEq

/-- Modelled from the spec: the DataType enumeration of
spectra/constants.py (real, imaginary or complex data per dimension). -/
inductive DataType where
  | REAL : DataType
  | IMAG : DataType
  | COMPLEX : DataType
deriving DecidableEq

/-- Modelled from the spec: the DataLayout enumeration of
spectra/constants.py.  The spec names SINGLE_INTERLEAVE and
BLOCK_INTERLEAVE and requires at least one further layout for data with
no real-valued encoding, modelled here as CONTIGUOUS. -/
inductive DataLayout where
  | CONTIGUOUS : DataLayout
  | BLOCK_INTERLEAVE : DataLayout
  | SINGLE_INTERLEAVE : DataLayout
deriving DecidableEq

/-- Modelled from the spec: the error taxonomy of section 7 of the spec.
The python source signals the first three with assert statements or
index errors whose exception classes live outside the embedded module;
the spec names them InvalidOperationError, UnsupportedLayoutError and
ShapeError.  notImplemented models the NotImplementedError raised by ft.
dtypeMismatch models the python-level type failure of applying a codec
function to a tensor of the wrong kind (real where complex is needed or
conversely), behaviour the spec leaves to the excluded codec module. -/
inductive SpecErr where
  | invalidOperation : SpecErr
  | unsupportedLayout : SpecErr
  | shapeError : SpecErr
  | notImplemented : SpecErr
  | dtypeMismatch : SpecErr
deriving DecidableEq

/-- A tensor: a rank, an axis-size function and a value function on
multi-indices.  Coordinates at positions at or above the rank and values
at out-of-range indices are irrelevant padding. -/
structure Tensor (α : Type) where
  rank : Nat
  size : Nat → Nat
  val : (Nat → Nat) → α

/-- Extensional tensor equality: same rank, same sizes below the rank and
the same value at every index (the value functions are compared on all
index functions whose meaningful coordinates are in range). -/
def TEq {α : Type} (t u : Tensor α) : Prop :=
  t.rank = u.rank ∧ (∀ i, i < t.rank → t.size i = u.size i) ∧
    ∀ idx : Nat → Nat, (∀ i, i < t.rank → idx i < t.size i) → t.val idx = u.val idx

theorem TEq.refl {α : Type} (t : Tensor α) : TEq t t :=
  ⟨rfl, fun _ _ => rfl, fun _ _ => rfl⟩

theorem Tensor.extT {α : Type} (t u : Tensor α) (h1 : t.rank = u.rank)
    (h2 : t.size = u.size) (h3 : t.val = u.val) : t = u := by
  cases t
  cases u
  cases h1
  cases h2
  cases h3
  rfl

/-- Exchange of two coordinate positions, the index action of
torch.transpose. -/
def swapFn (i j k : Nat) : Nat :=
  if k = i then j else if k = j then i else k

theorem swapFn_swapFn (i j k : Nat) : swapFn i j (swapFn i j k) = k := by
  unfold swapFn
  split_ifs <;> omega

/-- Point update of an index or size function at one coordinate. -/
def updFn (f : Nat → Nat) (i v : Nat) : Nat → Nat :=
  fun k => if k = i then v else f k

theorem updFn_self (f : Nat → Nat) (i : Nat) : updFn f i (f i) = f := by
  funext k
  unfold updFn
  by_cases h : k = i <;> simp [h]

theorem updFn_at (f : Nat → Nat) (i v : Nat) : updFn f i v i = v := by
  simp [updFn]

theorem updFn_updFn (f : Nat → Nat) (i v w : Nat) :
    updFn (updFn f i v) i w = updFn f i w := by
  funext k
  unfold updFn
  by_cases h : k = i <;> simp [h]

/-- Embeds torch.transpose: exchange axes d0 and d1 of a tensor.  Sizes
and values are pulled back along the coordinate swap. -/
def transposeT {α : Type} (d0 d1 : Nat) (t : Tensor α) : Tensor α :=
  ⟨t.rank, fun i => t.size (swapFn d0 d1 i), fun idx => t.val (fun i => idx (swapFn d0 d1 i))⟩

theorem transposeT_transposeT {α : Type} (d0 d1 : Nat) (t : Tensor α) :
    transposeT d0 d1 (transposeT d0 d1 t) = t := by
  refine Tensor.extT _ _ rfl ?_ ?_
  · funext i
    show t.size (swapFn d0 d1 (swapFn d0 d1 i)) = t.size i
    rw [swapFn_swapFn]
  · funext idx
    show t.val (fun i => idx (swapFn d0 d1 (swapFn d0 d1 i))) = t.val idx
    congr 1
    funext i
    rw [swapFn_swapFn]

theorem transposeT_rank {α : Type} (d0 d1 : Nat) (t : Tensor α) :
    (transposeT d0 d1 t).rank = t.rank := rfl

/-- Modelled from the spec: combine_block_from_complex of
spectra/utils.py.  Packs a complex-valued tensor with N samples on the
last axis into a real-valued tensor of last-axis length 2N, real parts
first, imaginary parts second (block interleave).  Complex scalars are
embedded as pairs (real part, imaginary part). -/
def combine_block_from_complex {α : Type} (t : Tensor (α × α)) : Tensor α :=
  let n := t.rank - 1
  let N := t.size n
  ⟨t.rank, updFn t.size n (2 * N),
    fun idx => if idx n < N then (t.val idx).1 else (t.val (updFn idx n (idx n - N))).2⟩

/-- Modelled from the spec: split_block_to_complex of spectra/utils.py.
Decodes a block-interleaved real tensor of even last-axis length 2N into
a complex tensor of N samples, pairing position k with position k + N.
Fails with ShapeError when the last axis has odd length. -/
def split_block_to_complex {α : Type} (t : Tensor α) :
    Except SpecErr (Tensor (α × α)) :=
  let n := t.rank - 1
  let L := t.size n
  if L % 2 = 1 then .error .shapeError
  else .ok ⟨t.rank, updFn t.size n (L / 2),
    fun idx => (t.val idx, t.val (updFn idx n (idx n + L / 2)))⟩

/-- Modelled from the spec: interleave_single_to_block of
spectra/utils.py.  Reorders the last axis from alternating real and
imaginary samples into the block order, all real parts first. -/
def interleave_single_to_block {α : Type} (t : Tensor α) : Tensor α :=
  let n := t.rank - 1
  let N := t.size n / 2
  ⟨t.rank, t.size,
    fun idx => t.val (updFn idx n (if idx n < N then 2 * idx n else 2 * (idx n - N) + 1))⟩

/-- Modelled from the spec: interleave_block_to_single of
spectra/utils.py.  Inverse reordering of interleave_single_to_block. -/
def interleave_block_to_single {α : Type} (t : Tensor α) : Tensor α :=
  let n := t.rank - 1
  let N := t.size n / 2
  ⟨t.rank, t.size,
    fun idx => t.val (updFn idx n (if idx n % 2 = 0 then idx n / 2 else N + idx n / 2))⟩


/-- Rebuilding the block encoding after a decode restores the original
real tensor exactly (the split and combine round trip of section 8 of
the spec, stated for the direction used by a double transpose). -/
theorem combine_split {α : Type} (t : Tensor α) (c : Tensor (α × α))
    (h : split_block_to_complex t = .ok c) :
    combine_block_from_complex c = t := by
  unfold split_block_to_complex at h
  dsimp only at h
  by_cases hodd : t.size (t.rank - 1) % 2 = 1
  · rw [if_pos hodd] at h
    exact Except.noConfusion h
  · rw [if_neg hodd] at h
    injection h with h
    subst h
    unfold combine_block_from_complex
    dsimp only
    refine Tensor.extT _ _ rfl ?_ ?_
    · rw [updFn_at, updFn_updFn]
      have h2 : 2 * (t.size (t.rank - 1) / 2) = t.size (t.rank - 1) := by omega
      rw [h2, updFn_self]
    · funext idx
      dsimp only
      rw [updFn_at]
      by_cases hlt : idx (t.rank - 1) < t.size (t.rank - 1) / 2
      · rw [if_pos hlt]
      · rw [if_neg hlt]
        rw [updFn_at, updFn_updFn]
        have h3 : idx (t.rank - 1) - t.size (t.rank - 1) / 2 + t.size (t.rank - 1) / 2
            = idx (t.rank - 1) := by omega
        rw [h3, updFn_self]

/-- Decoding the block encoding of a complex tensor restores the complex
tensor on every valid index (split inverts combine; the first component
needs the last coordinate to be in range, hence the rank hypothesis and
the extensional form of the conclusion). -/
theorem split_combine {α : Type} (t : Tensor (α × α)) (hr : 0 < t.rank) :
    ∃ c, split_block_to_complex (combine_block_from_complex t) = .ok c ∧ TEq c t := by
  cases hsp : split_block_to_complex (combine_block_from_complex t) with
  | error e =>
      exfalso
      unfold split_block_to_complex combine_block_from_complex at hsp
      dsimp only at hsp
      rw [updFn_at] at hsp
      have heven : ¬ (2 * t.size (t.rank - 1)) % 2 = 1 := by omega
      rw [if_neg heven] at hsp
      exact Except.noConfusion hsp
  | ok c =>
      refine ⟨c, rfl, ?_⟩
      unfold split_block_to_complex combine_block_from_complex at hsp
      dsimp only at hsp
      rw [updFn_at] at hsp
      have heven : ¬ (2 * t.size (t.rank - 1)) % 2 = 1 := by omega
      rw [if_neg heven] at hsp
      injection hsp with hsp
      subst hsp
      have h2 : 2 * t.size (t.rank - 1) / 2 = t.size (t.rank - 1) := by omega
      refine ⟨rfl, ?_, ?_⟩
      · intro i hi
        show updFn (updFn t.size (t.rank - 1) (2 * t.size (t.rank - 1))) (t.rank - 1)
          (2 * t.size (t.rank - 1) / 2) i = t.size i
        rw [h2, updFn_updFn, updFn_self]
      · intro idx hidx
        have hlast : idx (t.rank - 1) < t.size (t.rank - 1) := by
          have hv := hidx (t.rank - 1) (show t.rank - 1 < t.rank by omega)
          have hv2 : idx (t.rank - 1) < updFn (updFn t.size (t.rank - 1)
              (2 * t.size (t.rank - 1))) (t.rank - 1)
              (2 * t.size (t.rank - 1) / 2) (t.rank - 1) := hv
          rw [updFn_at, h2] at hv2
          exact hv2
        show (if idx (t.rank - 1) < t.size (t.rank - 1) then (t.val idx).1
              else (t.val (updFn idx (t.rank - 1)
                (idx (t.rank - 1) - t.size (t.rank - 1)))).2,
              if updFn idx (t.rank - 1) (idx (t.rank - 1) + 2 * t.size (t.rank - 1) / 2)
                  (t.rank - 1) < t.size (t.rank - 1) then
                (t.val (updFn idx (t.rank - 1)
                  (idx (t.rank - 1) + 2 * t.size (t.rank - 1) / 2))).1
              else (t.val (updFn (updFn idx (t.rank - 1)
                  (idx (t.rank - 1) + 2 * t.size (t.rank - 1) / 2)) (t.rank - 1)
                (updFn idx (t.rank - 1)
                  (idx (t.rank - 1) + 2 * t.size (t.rank - 1) / 2) (t.rank - 1)
                  - t.size (t.rank - 1)))).2) = t.val idx
        rw [h2, if_pos hlast, updFn_at]
        have hge : ¬ idx (t.rank - 1) + t.size (t.rank - 1) < t.size (t.rank - 1) := by
          omega
        rw [if_neg hge, Nat.add_sub_cancel, updFn_updFn, updFn_self]

/-- The stored tensor of a spectrum: either real-valued storage (complex
points, when present, are encoded along an axis) or complex-native
storage, with complex scalars embedded as pairs. -/
inductive TData (α : Type) where
  | realT : Tensor α → TData α
  | cplxT : Tensor (α × α) → TData α

/-- Rank of the stored tensor. -/
def TData.rank {α : Type} : TData α → Nat
  | .realT t => t.rank
  | .cplxT t => t.rank

/-- Axis sizes of the stored tensor. -/
def TData.size {α : Type} : TData α → Nat → Nat
  | .realT t => t.size
  | .cplxT t => t.size

/-- Stored scalar at an index, tagged by the storage kind. -/
def TData.valTag {α : Type} : TData α → (Nat → Nat) → (α ⊕ (α × α))
  | .realT t => fun idx => .inl (t.val idx)
  | .cplxT t => fun idx => .inr (t.val idx)

/-- Embeds torch.transpose applied to the stored tensor of either kind. -/
def transposeTD {α : Type} (d0 d1 : Nat) : TData α → TData α
  | .realT t => .realT (transposeT d0 d1 t)
  | .cplxT t => .cplxT (transposeT d0 d1 t)

/-- Extensional equality of stored tensors: the same storage kind and
extensionally equal tensors. -/
def TDEq {α : Type} : TData α → TData α → Prop
  | .realT a, .realT b => TEq a b
  | .cplxT a, .cplxT b => TEq a b
  | _, _ => False

theorem transposeTD_transposeTD {α : Type} (d0 d1 : Nat) (d : TData α) :
    transposeTD d0 d1 (transposeTD d0 d1 d) = d := by
  cases d <;> simp [transposeTD, transposeT_transposeT]

/-- Exchange of the entries at positions i and j of a list, the update
performed on each per-dimension metadata tuple by a transpose.  When one
of the positions is out of range the list is returned unchanged. -/
def swapNth {α : Type} (l : List α) (i j : Nat) : List α :=
  match l[i]?, l[j]? with
  | some a, some b => (l.set i b).set j a
  | _, _ => l

theorem swapNth_length {α : Type} (l : List α) (i j : Nat) :
    (swapNth l i j).length = l.length := by
  unfold swapNth
  cases l[i]? <;> cases l[j]? <;> simp

theorem swapNth_eq_self_left {α : Type} (l : List α) (i j : Nat) (h : l.length ≤ i) :
    swapNth l i j = l := by
  unfold swapNth
  rw [List.getElem?_eq_none h]

theorem swapNth_eq_self_right {α : Type} (l : List α) (i j : Nat) (h : l.length ≤ j) :
    swapNth l i j = l := by
  unfold swapNth
  rw [List.getElem?_eq_none h]
  cases l[i]? <;> rfl

theorem swapNth_getElem? {α : Type} (l : List α) (i j k : Nat)
    (hil : i < l.length) (hjl : j < l.length) :
    (swapNth l i j)[k]? = if j = k then l[i]? else if i = k then l[j]? else l[k]? := by
  unfold swapNth
  rw [List.getElem?_eq_getElem hil, List.getElem?_eq_getElem hjl]
  simp only [List.getElem?_set, List.length_set]
  by_cases hjk : j = k
  · simp [hjk, hjl, hil, List.getElem?_eq_getElem hil, hjk ▸ hjl]
  · by_cases hik : i = k
    · simp [hjk, hik, hil, hjl, List.getElem?_eq_getElem hjl, hik ▸ hil]
    · simp [hjk, hik]

theorem swapNth_swapNth {α : Type} (l : List α) (i j : Nat) :
    swapNth (swapNth l i j) i j = l := by
  by_cases hil : i < l.length
  · by_cases hjl : j < l.length
    · apply List.ext_getElem?
      intro k
      have hl : (swapNth l i j).length = l.length := swapNth_length l i j
      rw [swapNth_getElem? _ i j k (by omega) (by omega),
        swapNth_getElem? l i j i hil hjl, swapNth_getElem? l i j j hil hjl]
      rw [swapNth_getElem? l i j k hil hjl]
      by_cases hjk : j = k
      · by_cases hij : j = i <;> simp [hjk, hij] <;> simp [hjk ▸ hij]
      · by_cases hik : i = k
        · simp [hjk, hik]
        · simp [hjk, hik]
    · rw [swapNth_eq_self_right l i j (by omega), swapNth_eq_self_right l i j (by omega)]
  · rw [swapNth_eq_self_left l i j (by omega), swapNth_eq_self_left l i j (by omega)]

/-- The NMRSpectrum data model of nmr_spectrum.py: the stored tensor
plus the per-dimension metadata tuples and the abstract data_layout
contract that format subclasses implement.  The scalar type of the
tensor is a parameter so that concrete instances can use exact numbers.
The spectral widths are rational stand-ins for the float entries of sw;
the transpose algorithm only permutes them. -/
structure Spectrum (α : Type) where
  data : TData α
  domain_type : List DomainType
  data_type : List DataType
  sw : List Rat
  label : List String
  data_layout : DataType → Nat → DataLayout

/-- Number of dimensions.  The source exposes ndims abstractly; per the
spec invariant every metadata tuple has length ndims, and the transpose
algorithm indexes data_type with the dimension numbers, so the length of
data_type is the faithful observable choice. -/
def Spectrum.ndims {α : Type} (s : Spectrum α) : Nat := s.data_type.length

/-- The metadata update of a transpose: every per-dimension tuple has
its entries at the two dimensions exchanged, and the given tensor
becomes the stored data.  Modelled from the spec: in the source the
tuples are derived from the format-specific meta dictionary, and the
meta update of a transpose lives in the format subclasses outside the
embedded module; the spec states that a transpose swaps the
corresponding entries of domain_type, data_type, sw and label. -/
def withData {α : Type} (s : Spectrum α) (d0 d1 : Nat) (d : TData α) : Spectrum α :=
  { s with
    data := d,
    domain_type := swapNth s.domain_type d0 d1,
    data_type := swapNth s.data_type d0 d1,
    sw := swapNth s.sw d0 d1,
    label := swapNth s.label d0 d1 }

/-- The result of a transpose that touches no layout: the pure physical
axis permutation together with the metadata entry swaps. -/
def permuteOnly {α : Type} (d0 d1 : Nat) (s : Spectrum α) : Spectrum α :=
  withData s d0 d1 (transposeTD d0 d1 s.data)

/-- The entry special case of NMRSpectrum.transpose (lines 205 to 217):
when the greater dimension is the innermost one and its data type is
COMPLEX, the layout found there must be BLOCK_INTERLEAVE (the python
assert, reported per the spec taxonomy as UnsupportedLayoutError), the
complex-native data is packed into block-interleaved real storage with
combine_block_from_complex, and when the layout associated with the
data type arriving at the innermost dimension is SINGLE_INTERLEAVE the
storage is further reordered with interleave_block_to_single. -/
def entryStep {α : Type} (before_layout1 after_layout1 : DataLayout) (d : TData α) :
    Except SpecErr (TData α) :=
  if before_layout1 ≠ .BLOCK_INTERLEAVE then .error .unsupportedLayout
  else
    match d with
    | .cplxT t =>
        let r := combine_block_from_complex t
        .ok (.realT (if after_layout1 = .SINGLE_INTERLEAVE
                     then interleave_block_to_single r else r))
    | .realT _ => .error .dtypeMismatch

/-- The exit special case of NMRSpectrum.transpose (lines 222 to 230):
when the data type that moved into the innermost dimension is COMPLEX,
its storage is reordered from single to block interleave when its layout
before the move was SINGLE_INTERLEAVE, and then decoded into
complex-native form with split_block_to_complex.  Errors carry the data
as it stands when the error is raised. -/
def exitStep {α : Type} (before_layout0 : DataLayout) (d : TData α) :
    Except (SpecErr × TData α) (TData α) :=
  match d with
  | .realT t =>
      let r := if before_layout0 = .SINGLE_INTERLEAVE
               then interleave_single_to_block t else t
      match split_block_to_complex r with
      | .ok c => .ok (.cplxT c)
      | .error e => .error (e, .realT r)
  | .cplxT t => .error (.dtypeMismatch, .cplxT t)

/-- Embeds NMRSpectrum.transpose (lines 172 to 230 of nmr_spectrum.py).
The python assert on the number of dimensions is reported per the spec
taxonomy as InvalidOperationError, and an out-of-range dimension (a
python IndexError on the data_type tuple) as ShapeError; both carry the
untouched spectrum.  Errors raised later carry the spectrum with the
data as mutated so far and the metadata still untouched, matching the
in-place python semantics in which the metadata update of the format
subclass only happens after the base method returns. -/
def transpose {α : Type} (dim0 dim1 : Nat) (interleave_complex : Bool) (s : Spectrum α) :
    Except (SpecErr × Spectrum α) (Spectrum α) :=
  if 1 < s.ndims then
    let d0 := min dim0 dim1
    let d1 := max dim0 dim1
    if s.ndims ≤ d1 then .error (.shapeError, s)
    else
      let data_type0 := s.data_type.getD d0 .REAL
      let data_type1 := s.data_type.getD d1 .REAL
      let before_layout0 := s.data_layout data_type0 d0
      let before_layout1 := s.data_layout data_type1 d1
      let after_layout1 := s.data_layout data_type0 d1
      let entry : Except SpecErr (TData α) :=
        if interleave_complex = true ∧ s.ndims - 1 = d1 ∧ data_type1 = .COMPLEX
        then entryStep before_layout1 after_layout1 s.data
        else .ok s.data
      match entry with
      | .error e => .error (e, s)
      | .ok mid =>
          let swapped := transposeTD d0 d1 mid
          let exitd : Except (SpecErr × TData α) (TData α) :=
            if interleave_complex = true ∧ s.ndims - 1 = d1 ∧ data_type0 = .COMPLEX
            then exitStep before_layout0 swapped
            else .ok swapped
          match exitd with
          | .error ed => .error (ed.1, { s with data := ed.2 })
          | .ok final => .ok (withData s d0 d1 final)
  else .error (.invalidOperation, s)

/-- Zeroing the imaginary component of every sample, the effect of the
python statement data.imag = 0.0 used by ft for a real transform. -/
def zeroImag (t : Tensor Complex) : Tensor Complex :=
  ⟨t.rank, t.size, fun idx => ((t.val idx).re : Complex)⟩

/-- Negating every odd-indexed sample of the last axis, the effect of
the python slice assignment data[..., 1::2] = data[..., 1::2] * -1. -/
def negOdd (t : Tensor Complex) : Tensor Complex :=
  ⟨t.rank, t.size, fun idx => if idx (t.rank - 1) % 2 = 1 then -(t.val idx) else t.val idx⟩

/-- Negating the imaginary component of every sample, the effect of the
python statement data.imag *= -1.0. -/
def negImag (t : Tensor Complex) : Tensor Complex :=
  ⟨t.rank, t.size, fun idx => ⟨(t.val idx).re, -(t.val idx).im⟩⟩

/-- Embeds NMRSpectrum.ft (lines 254 to 333 of nmr_spectrum.py).  The
two torch transform kernels are external collaborators and are passed in
as the parameters fftF and ifftF, exactly as the source selects between
torch.fft.fft and torch.fft.ifft.  The returned value is the data
attribute after the method runs; an error carries the data attribute as
it stands when the error is raised (the auto check precedes every
mutation). -/
def ft (fftF ifftF : Tensor Complex → Tensor Complex)
    (auto real inv alt neg bruk : Bool) (data : Tensor Complex) :
    Except (SpecErr × Tensor Complex) (Tensor Complex) :=
  if auto then .error (.notImplemented, data)
  else
    let real := real || bruk
    let alt := alt || bruk
    let d1 := if real then zeroImag data else data
    let fft_func := if inv then ifftF else fftF
    let d2 := if alt && !inv then negOdd d1 else d1
    let d3 := if neg then negImag d2 else d2
    let d4 := fft_func d3
    let d5 := if inv && alt then negOdd d4 else d4
    .ok d5

/-- Claim C7: for every spectrum data tensor and every setting of the
remaining flags, ft with bruk set produces exactly the data that ft with
real and alt set (and bruk clear) produces: bruk forces the real and alt
flags and nothing else. -/
theorem ft_bruk_forces_real_alt (fftF ifftF : Tensor Complex → Tensor Complex)
    (auto real inv alt neg : Bool) (data : Tensor Complex) :
    ft fftF ifftF auto real inv alt neg true data
      = ft fftF ifftF auto true inv true neg false data := by
  cases auto <;> cases real <;> cases alt <;> rfl

/-- Claim C8: ft with the auto flag fails with NotImplementedError
regardless of every other flag, and the error carries the data tensor
unchanged: the failure precedes any mutation. -/
theorem ft_auto_not_implemented (fftF ifftF : Tensor Complex → Tensor Complex)
    (real inv alt neg bruk : Bool) (data : Tensor Complex) :
    ft fftF ifftF true real inv alt neg bruk data = .error (.notImplemented, data) := rfl

/-- The reset-relevant attribute state of an NMRSpectrum: the data
tensor, the two filepaths (strings stand in for path objects) and the
meta dictionary, each of which reset can return to the unset state. -/
structure AttrState (α : Type) where
  data : Option (TData α)
  in_filepath : Option String
  out_filepath : Option String
  meta : List (String × String)

/-- The reset_attrs class attribute of NMRSpectrum (line 43). -/
def reset_attrs : List String := ["data", "in_filepath", "out_filepath"]

/-- Embeds setattr(self, attr, None) for the attributes named in
reset_attrs; any other name leaves the state unchanged. -/
def setAttrNone {α : Type} (st : AttrState α) (attr : String) : AttrState α :=
  if attr = "data" then { st with data := none }
  else if attr = "in_filepath" then { st with in_filepath := none }
  else if attr = "out_filepath" then { st with out_filepath := none }
  else st

/-- Embeds NMRSpectrum.reset (lines 151 to 169): the meta dictionary is
cleared and every attribute in the given tuple, by default reset_attrs,
is set to the unset state. -/
def reset {α : Type} (st : AttrState α) (attrs : Option (List String)) : AttrState α :=
  let st1 := { st with meta := [] }
  (attrs.getD reset_attrs).foldl setAttrNone st1

/-- Embeds the concrete body of NMRSpectrum.load (lines 118 to 131): the
reset is performed with the reset_attrs filtered to exclude the two
filepath attributes. -/
def load {α : Type} (st : AttrState α) : AttrState α :=
  reset st (some (reset_attrs.filter
    (fun attr => decide (attr ∉ ["in_filepath", "out_filepath"]))))

/-- Claim C10: load resets the data attribute to the unset state and
leaves in_filepath and out_filepath unchanged, because the two filepath
attributes are excluded from the reset performed when loading. -/
theorem load_resets_data_not_filepath_attrs {α : Type} (st : AttrState α) :
    (load st).data = none ∧ (load st).in_filepath = st.in_filepath
      ∧ (load st).out_filepath = st.out_filepath :=
  ⟨rfl, rfl, rfl⟩

/-- Embeds torch.linspace(a, b, steps) at position k: steps evenly
spaced values from a to b inclusive; a single step yields a alone. -/
noncomputable def linspaceAt (a b : Real) (steps k : Nat) : Real :=
  if steps ≤ 1 then a else a + k * ((b - a) / ((steps : Real) - 1))

/-- Embeds the multiplication step of NMRSpectrum.phase (lines 245 to
250): with swLast the last entry of sw and npts the last-axis length,
every sample is multiplied by exp(phase * i) for phase = p0 + p1 * f
with f the linspace frequency of its last coordinate. -/
noncomputable def phaseMul (p0 p1 swLast : Real) (t : Tensor Complex) : Tensor Complex :=
  let n := t.rank - 1
  let npts := t.size n
  ⟨t.rank, t.size, fun idx =>
    t.val idx * Complex.exp
      ((p0 + p1 * linspaceAt (-swLast / 2) (swLast / 2) npts (idx n) : Real) * Complex.I)⟩

/-- The real part extraction of data.real. -/
def realPartT (t : Tensor Complex) : Tensor Real :=
  ⟨t.rank, t.size, fun idx => (t.val idx).re⟩

/-- Embeds NMRSpectrum.phase (lines 232 to 252): the phase ramp
multiplication followed, when discard_imaginaries is set, by replacing
the data with its real component. -/
noncomputable def phase (p0 p1 swLast : Real) (discard_imaginaries : Bool)
    (t : Tensor Complex) : Tensor Complex ⊕ Tensor Real :=
  let m := phaseMul p0 p1 swLast t
  if discard_imaginaries then .inr (realPartT m) else .inl m

/-- The statement of claim C6 for one data tensor: every sample is
multiplied by exp(i * (p0 + p1 * f)) where f ranges over the evenly
spaced frequencies from -sw/2 to sw/2 inclusive of both endpoints, the
zero correction leaves every value unchanged, and discarding
imaginaries afterwards keeps exactly the real component. -/
def PhaseSpec (p0 p1 swLast : Real) (t : Tensor Complex) : Prop :=
  (∀ idx : Nat → Nat, (phaseMul p0 p1 swLast t).val idx
      = t.val idx * Complex.exp (Complex.I *
        ((p0 + p1 * (-swLast / 2 + (idx (t.rank - 1) : Real) *
          (swLast / ((t.size (t.rank - 1) : Real) - 1))) : Real))))
  ∧ (-swLast / 2 + ((0 : Nat) : Real) * (swLast / ((t.size (t.rank - 1) : Real) - 1))
      = -swLast / 2)
  ∧ (-swLast / 2 + ((t.size (t.rank - 1) - 1 : Nat) : Real) *
        (swLast / ((t.size (t.rank - 1) : Real) - 1)) = swLast / 2)
  ∧ (∀ k : Nat, (-swLast / 2 + ((k + 1 : Nat) : Real) *
        (swLast / ((t.size (t.rank - 1) : Real) - 1)))
      - (-swLast / 2 + (k : Real) * (swLast / ((t.size (t.rank - 1) : Real) - 1)))
      = swLast / ((t.size (t.rank - 1) : Real) - 1))
  ∧ (∀ idx : Nat → Nat, (phaseMul 0 0 swLast t).val idx = t.val idx)
  ∧ phase p0 p1 swLast true t = .inr (realPartT (phaseMul p0 p1 swLast t))

/-- Claim C6: the phase correction multiplies each sample along the last
axis by exp(i * (p0 + p1 * f)) with f running over npts evenly spaced
values spanning -sw/2 to sw/2 inclusive of both endpoints (which
presumes at least two points), phase 0 0 is the identity on the complex
values, and discard_imaginaries replaces the data by its real part. -/
theorem phase_linear_ramp (p0 p1 swLast : Real) (t : Tensor Complex)
    (hn : 2 ≤ t.size (t.rank - 1)) : PhaseSpec p0 p1 swLast t := by
  have hne : ((t.size (t.rank - 1) : Real) - 1) ≠ 0 := by
    have h2 : (2 : Real) ≤ (t.size (t.rank - 1) : Real) := by exact_mod_cast hn
    intro h
    nlinarith
  have hlin : ∀ k : Nat, linspaceAt (-swLast / 2) (swLast / 2) (t.size (t.rank - 1)) k
      = -swLast / 2 + (k : Real) * (swLast / ((t.size (t.rank - 1) : Real) - 1)) := by
    intro k
    unfold linspaceAt
    rw [if_neg (by omega)]
    congr 1
    congr 1
    congr 1
    ring
  refine ⟨?_, ?_, ?_, ?_, ?_, rfl⟩
  · intro idx
    show t.val idx * Complex.exp
        ((p0 + p1 * linspaceAt (-swLast / 2) (swLast / 2) (t.size (t.rank - 1))
          (idx (t.rank - 1)) : Real) * Complex.I)
      = t.val idx * Complex.exp (Complex.I * _)
    rw [hlin, mul_comm _ Complex.I]
  · simp
  · have hcast : ((t.size (t.rank - 1) - 1 : Nat) : Real)
        = (t.size (t.rank - 1) : Real) - 1 := by
      have h1 : 1 ≤ t.size (t.rank - 1) := by omega
      rw [Nat.cast_sub h1, Nat.cast_one]
    rw [hcast]
    field_simp
    ring
  · intro k
    push_cast
    ring
  · intro idx
    show t.val idx * Complex.exp
        ((0 + 0 * linspaceAt (-swLast / 2) (swLast / 2) (t.size (t.rank - 1))
          (idx (t.rank - 1)) : Real) * Complex.I) = t.val idx
    simp

/-- A concrete data tensor for the phase witness: one axis of four
samples, all equal to one. -/
def phaseWitnessTensor : Tensor Complex :=
  ⟨1, fun _ => 4, fun _ => (1 : Complex)⟩

/-- Witness for claim C6 at a concrete input. -/
theorem phase_linear_ramp_witness :
    2 ≤ phaseWitnessTensor.size (phaseWitnessTensor.rank - 1)
      ∧ PhaseSpec 1 2 3 phaseWitnessTensor :=
  ⟨by decide, phase_linear_ramp 1 2 3 phaseWitnessTensor (by decide)⟩

theorem getD_swapNth_left {α : Type} (l : List α) (i j : Nat) (x : α)
    (hil : i < l.length) (hjl : j < l.length) :
    (swapNth l i j).getD i x = l.getD j x := by
  rw [List.getD_eq_getElem?_getD, List.getD_eq_getElem?_getD,
    swapNth_getElem? l i j i hil hjl]
  by_cases hji : j = i
  · rw [if_pos hji, hji]
  · rw [if_neg hji, if_pos rfl]

theorem getD_swapNth_right {α : Type} (l : List α) (i j : Nat) (x : α)
    (hil : i < l.length) (hjl : j < l.length) :
    (swapNth l i j).getD j x = l.getD i x := by
  rw [List.getD_eq_getElem?_getD, List.getD_eq_getElem?_getD,
    swapNth_getElem? l i j j hil hjl, if_pos rfl]

theorem ndims_withData {α : Type} (s : Spectrum α) (d0 d1 : Nat) (d : TData α) :
    (withData s d0 d1 d).ndims = s.ndims := by
  unfold withData Spectrum.ndims
  exact swapNth_length s.data_type d0 d1

theorem data_layout_withData {α : Type} (s : Spectrum α) (d0 d1 : Nat) (d : TData α) :
    (withData s d0 d1 d).data_layout = s.data_layout := rfl

theorem data_withData {α : Type} (s : Spectrum α) (d0 d1 : Nat) (d : TData α) :
    (withData s d0 d1 d).data = d := rfl

theorem getD_withData_left {α : Type} (s : Spectrum α) (d0 d1 : Nat) (d : TData α) (x : DataType)
    (h0 : d0 < s.ndims) (h1 : d1 < s.ndims) :
    (withData s d0 d1 d).data_type.getD d0 x = s.data_type.getD d1 x :=
  getD_swapNth_left s.data_type d0 d1 x h0 h1

theorem getD_withData_right {α : Type} (s : Spectrum α) (d0 d1 : Nat) (d : TData α) (x : DataType)
    (h0 : d0 < s.ndims) (h1 : d1 < s.ndims) :
    (withData s d0 d1 d).data_type.getD d1 x = s.data_type.getD d0 x :=
  getD_swapNth_right s.data_type d0 d1 x h0 h1

/-- Normalisation of the dimension pair: the source sorts the two
dimensions first, so the transpose of an arbitrary pair equals the
transpose of the sorted pair. -/
theorem transpose_minmax {α : Type} (a b : Nat) (ic : Bool) (s : Spectrum α) :
    transpose a b ic s = transpose (min a b) (max a b) ic s := by
  unfold transpose
  have e1 : min (min a b) (max a b) = min a b := by omega
  have e2 : max (min a b) (max a b) = max a b := by omega
  rw [e1, e2]

/-- Claim C4: on a spectrum with a single dimension, transpose fails
with InvalidOperationError (the python assert on self.ndims, reported
per the spec error taxonomy) and the carried spectrum is unchanged. -/
theorem transpose_one_dim_invalid_operation {α : Type} (s : Spectrum α)
    (dim0 dim1 : Nat) (ic : Bool) (h : s.ndims = 1) :
    transpose dim0 dim1 ic s = .error (.invalidOperation, s) := by
  unfold transpose
  rw [if_neg (by omega)]

/-- A concrete one-dimensional spectrum. -/
def oneDimSpectrum : Spectrum Int :=
  { data := .realT ⟨1, fun _ => 2, fun idx => (idx 0 : Int)⟩,
    domain_type := [.TIME],
    data_type := [.REAL],
    sw := [1],
    label := ["x"],
    data_layout := fun _ _ => .CONTIGUOUS }

/-- Witness for claim C4 at a concrete one-dimensional spectrum. -/
theorem transpose_one_dim_invalid_operation_witness :
    oneDimSpectrum.ndims = 1
      ∧ transpose 0 1 true oneDimSpectrum = .error (.invalidOperation, oneDimSpectrum) :=
  ⟨rfl, transpose_one_dim_invalid_operation oneDimSpectrum 0 1 true rfl⟩

/-- Claim C5: in the innermost special case (interleave requested, the
greater dimension is the innermost one, and its data type is COMPLEX),
a data layout other than BLOCK_INTERLEAVE makes transpose fail with
UnsupportedLayoutError (the python assert on before_layout1, reported
per the spec error taxonomy), before any mutation. -/
theorem transpose_nonblock_unsupported_layout {α : Type} (s : Spectrum α)
    (dim0 dim1 : Nat)
    (hnd : 1 < s.ndims)
    (hb : max dim0 dim1 < s.ndims)
    (hlast : s.ndims - 1 = max dim0 dim1)
    (hdt1 : s.data_type.getD (max dim0 dim1) .REAL = .COMPLEX)
    (hlay : s.data_layout .COMPLEX (max dim0 dim1) ≠ .BLOCK_INTERLEAVE) :
    transpose dim0 dim1 true s = .error (.unsupportedLayout, s) := by
  unfold transpose
  rw [if_pos hnd]
  dsimp only
  rw [if_neg (by omega), if_pos ⟨rfl, hlast, hdt1⟩]
  unfold entryStep
  rw [hdt1, if_pos hlay]

/-- A concrete spectrum whose innermost complex dimension reports a
single-interleave layout, triggering the unsupported-layout failure. -/
def badLayoutSpectrum : Spectrum Int :=
  { data := .cplxT ⟨2, fun _ => 2,
      fun idx => ((4 * idx 0 + 2 * idx 1 : Int), (4 * idx 0 + 2 * idx 1 + 1 : Int))⟩,
    domain_type := [.TIME, .TIME],
    data_type := [.COMPLEX, .COMPLEX],
    sw := [1, 2],
    label := ["x", "y"],
    data_layout := fun _ _ => .SINGLE_INTERLEAVE }

/-- Witness for claim C5 at a concrete spectrum. -/
theorem transpose_nonblock_unsupported_layout_witness :
    1 < badLayoutSpectrum.ndims
      ∧ badLayoutSpectrum.data_type.getD (max 0 1) .REAL = .COMPLEX
      ∧ transpose 0 1 true badLayoutSpectrum
          = .error (.unsupportedLayout, badLayoutSpectrum) :=
  ⟨by decide, by decide,
    transpose_nonblock_unsupported_layout badLayoutSpectrum 0 1
      (by decide) (by decide) (by decide) (by decide) (by decide)⟩

/-- Forward computation of a transpose that triggers neither innermost
special case: the result is exactly the pure permutation. -/
theorem transpose_eq_pure {α : Type} (s : Spectrum α) (d0 d1 : Nat) (ic : Bool)
    (hord : d0 ≤ d1) (hnd : 1 < s.ndims) (hb : d1 < s.ndims)
    (hc1 : ¬(ic = true ∧ s.ndims - 1 = d1 ∧ s.data_type.getD d1 .REAL = .COMPLEX))
    (hc0 : ¬(ic = true ∧ s.ndims - 1 = d1 ∧ s.data_type.getD d0 .REAL = .COMPLEX)) :
    transpose d0 d1 ic s = .ok (permuteOnly d0 d1 s) := by
  unfold transpose
  rw [if_pos hnd]
  dsimp only
  have hmin : min d0 d1 = d0 := by omega
  have hmax : max d0 d1 = d1 := by omega
  rw [hmin, hmax, if_neg (by omega), if_neg hc1]
  dsimp only
  rw [if_neg hc0]
  rfl

/-- Claim C9: when interleave_complex is off, or the greater dimension
is not the innermost one, transpose performs only the physical axis
permutation together with the metadata swaps: no codec conversion runs,
and every stored value is preserved, merely reindexed through the
coordinate swap. -/
theorem transpose_no_codec_pure_permutation {α : Type} (s : Spectrum α)
    (dim0 dim1 : Nat) (ic : Bool)
    (hnd : 1 < s.ndims) (hb : max dim0 dim1 < s.ndims)
    (hcond : ic = false ∨ max dim0 dim1 ≠ s.ndims - 1) :
    transpose dim0 dim1 ic s = .ok (permuteOnly (min dim0 dim1) (max dim0 dim1) s)
      ∧ ∀ idx : Nat → Nat,
        (transposeTD (min dim0 dim1) (max dim0 dim1) s.data).valTag idx
          = s.data.valTag (fun i => idx (swapFn (min dim0 dim1) (max dim0 dim1) i)) := by
  constructor
  · rw [transpose_minmax]
    refine transpose_eq_pure s _ _ ic (by omega) hnd hb ?_ ?_ <;>
      rintro ⟨hic, hlast, -⟩ <;>
      rcases hcond with hcond | hcond
    · rw [hcond] at hic
      exact Bool.noConfusion hic
    · exact hcond hlast.symm
    · rw [hcond] at hic
      exact Bool.noConfusion hic
    · exact hcond hlast.symm
  · intro idx
    cases s.data <;> rfl

/-- A concrete two-dimensional spectrum transposed without interleave
handling, for the pure-permutation witness. -/
def pureSpectrum : Spectrum Int :=
  { data := .cplxT ⟨2, fun _ => 2,
      fun idx => ((4 * idx 0 + 2 * idx 1 : Int), (4 * idx 0 + 2 * idx 1 + 1 : Int))⟩,
    domain_type := [.TIME, .FREQ],
    data_type := [.COMPLEX, .COMPLEX],
    sw := [1, 2],
    label := ["x", "y"],
    data_layout := fun dt d =>
      if dt = .COMPLEX then
        (if d = 1 then .BLOCK_INTERLEAVE else .SINGLE_INTERLEAVE)
      else .CONTIGUOUS }

/-- Witness for claim C9 at a concrete spectrum with interleave off. -/
theorem transpose_no_codec_pure_permutation_witness :
    1 < pureSpectrum.ndims
      ∧ (transpose 0 1 false pureSpectrum = .ok (permuteOnly (min 0 1) (max 0 1) pureSpectrum)
        ∧ ∀ idx : Nat → Nat,
          (transposeTD (min 0 1) (max 0 1) pureSpectrum.data).valTag idx
            = pureSpectrum.data.valTag (fun i => idx (swapFn (min 0 1) (max 0 1) i))) :=
  ⟨by decide,
    transpose_no_codec_pure_permutation pureSpectrum 0 1 false
      (by decide) (by decide) (Or.inl rfl)⟩

theorem rank_split_block {α : Type} (t : Tensor α) (c : Tensor (α × α))
    (h : split_block_to_complex t = .ok c) : c.rank = t.rank := by
  unfold split_block_to_complex at h
  dsimp only at h
  by_cases hodd : t.size (t.rank - 1) % 2 = 1
  · rw [if_pos hodd] at h
    exact Except.noConfusion h
  · rw [if_neg hodd] at h
    injection h with h
    subst h
    rfl

theorem rank_transposeTD {α : Type} (d0 d1 : Nat) (d : TData α) :
    (transposeTD d0 d1 d).rank = d.rank := by
  cases d <;> rfl

/-- The statement of claim C1 for a call and its result: the four
per-dimension metadata tuples have the entries at the two (sorted)
dimensions exchanged, the number of dimensions and the tensor rank are
preserved, and whenever no innermost complex special case applies the
stored tensor is exactly the physical axis exchange of the original. -/
def TransposeMetaSpec {α : Type} (s s' : Spectrum α) (dim0 dim1 : Nat) (ic : Bool) : Prop :=
  s'.domain_type = swapNth s.domain_type (min dim0 dim1) (max dim0 dim1)
  ∧ s'.data_type = swapNth s.data_type (min dim0 dim1) (max dim0 dim1)
  ∧ s'.sw = swapNth s.sw (min dim0 dim1) (max dim0 dim1)
  ∧ s'.label = swapNth s.label (min dim0 dim1) (max dim0 dim1)
  ∧ s'.ndims = s.ndims
  ∧ s'.data.rank = s.data.rank
  ∧ (¬(ic = true ∧ s.ndims - 1 = max dim0 dim1
      ∧ (s.data_type.getD (min dim0 dim1) .REAL = .COMPLEX
        ∨ s.data_type.getD (max dim0 dim1) .REAL = .COMPLEX)) →
      s'.data = transposeTD (min dim0 dim1) (max dim0 dim1) s.data)

/-- Claim C1: every successful transpose exchanges the two dimensions
in the physical layout of the data and swaps the corresponding entries
of every per-dimension metadata sequence, so that afterwards each
sequence describes the dimensions in their new order. -/
theorem transpose_exchanges_dims_and_metadata {α : Type} (s s' : Spectrum α)
    (dim0 dim1 : Nat) (ic : Bool)
    (h : transpose dim0 dim1 ic s = .ok s') :
    TransposeMetaSpec s s' dim0 dim1 ic := by
  unfold TransposeMetaSpec
  unfold transpose at h
  by_cases hnd : 1 < s.ndims
  swap
  · rw [if_neg hnd] at h
    exact Except.noConfusion h
  rw [if_pos hnd] at h
  dsimp only at h
  by_cases hb : s.ndims ≤ max dim0 dim1
  · rw [if_pos hb] at h
    exact Except.noConfusion h
  rw [if_neg hb] at h
  by_cases hc1 : ic = true ∧ s.ndims - 1 = max dim0 dim1
      ∧ s.data_type.getD (max dim0 dim1) .REAL = .COMPLEX
  case neg =>
    rw [if_neg hc1] at h
    dsimp only at h
    by_cases hc0 : ic = true ∧ s.ndims - 1 = max dim0 dim1
        ∧ s.data_type.getD (min dim0 dim1) .REAL = .COMPLEX
    case neg =>
      rw [if_neg hc0] at h
      dsimp only at h
      injection h with h
      subst h
      refine ⟨rfl, rfl, rfl, rfl, ndims_withData _ _ _ _, ?_, fun _ => rfl⟩
      rw [data_withData, rank_transposeTD]
    case pos =>
      rw [if_pos hc0] at h
      cases hd : s.data with
      | cplxT t =>
          rw [hd] at h
          dsimp only [transposeTD, exitStep] at h
          exact Except.noConfusion h
      | realT t =>
          rw [hd] at h
          dsimp only [transposeTD, exitStep] at h
          cases hsp : split_block_to_complex
              (if s.data_layout (s.data_type.getD (min dim0 dim1) .REAL) (min dim0 dim1)
                  = .SINGLE_INTERLEAVE
               then interleave_single_to_block (transposeT (min dim0 dim1) (max dim0 dim1) t)
               else transposeT (min dim0 dim1) (max dim0 dim1) t) with
          | error e =>
              rw [hsp] at h
              exact Except.noConfusion h
          | ok c =>
              rw [hsp] at h
              injection h with h
              subst h
              refine ⟨rfl, rfl, rfl, rfl, ndims_withData _ _ _ _, ?_, ?_⟩
              · rw [data_withData]
                show c.rank = t.rank
                rw [rank_split_block _ _ hsp]
                split_ifs <;> rfl
              · intro hp
                exact absurd ⟨hc0.1, hc0.2.1, Or.inl hc0.2.2⟩ hp
  case pos =>
    rw [if_pos hc1] at h
    unfold entryStep at h
    by_cases hbl : s.data_layout (s.data_type.getD (max dim0 dim1) .REAL) (max dim0 dim1)
        ≠ .BLOCK_INTERLEAVE
    · rw [if_pos hbl] at h
      dsimp only at h
      exact Except.noConfusion h
    rw [if_neg hbl] at h
    cases hd : s.data with
    | realT t =>
        rw [hd] at h
        dsimp only at h
        exact Except.noConfusion h
    | cplxT t =>
        rw [hd] at h
        dsimp only at h
        by_cases hc0 : ic = true ∧ s.ndims - 1 = max dim0 dim1
            ∧ s.data_type.getD (min dim0 dim1) .REAL = .COMPLEX
        case neg =>
          rw [if_neg hc0] at h
          dsimp only at h
          injection h with h
          subst h
          refine ⟨rfl, rfl, rfl, rfl, ndims_withData _ _ _ _, ?_, ?_⟩
          · rw [data_withData, rank_transposeTD]
            split_ifs <;> rfl
          · intro hp
            exact absurd ⟨hc1.1, hc1.2.1, Or.inr hc1.2.2⟩ hp
        case pos =>
          rw [if_pos hc0] at h
          dsimp only [transposeTD, exitStep] at h
          cases hsp : split_block_to_complex
              (if s.data_layout (s.data_type.getD (min dim0 dim1) .REAL) (min dim0 dim1)
                  = .SINGLE_INTERLEAVE
               then interleave_single_to_block (transposeT (min dim0 dim1) (max dim0 dim1)
                 (if s.data_layout (s.data_type.getD (min dim0 dim1) .REAL) (max dim0 dim1)
                     = .SINGLE_INTERLEAVE
                  then interleave_block_to_single (combine_block_from_complex t)
                  else combine_block_from_complex t))
               else transposeT (min dim0 dim1) (max dim0 dim1)
                 (if s.data_layout (s.data_type.getD (min dim0 dim1) .REAL) (max dim0 dim1)
                     = .SINGLE_INTERLEAVE
                  then interleave_block_to_single (combine_block_from_complex t)
                  else combine_block_from_complex t)) with
          | error e =>
              rw [hsp] at h
              exact Except.noConfusion h
          | ok c =>
              rw [hsp] at h
              injection h with h
              subst h
              refine ⟨rfl, rfl, rfl, rfl, ndims_withData _ _ _ _, ?_, ?_⟩
              · rw [data_withData]
                show c.rank = t.rank
                rw [rank_split_block _ _ hsp]
                split_ifs <;> rfl
              · intro hp
                exact absurd ⟨hc1.1, hc1.2.1, Or.inr hc1.2.2⟩ hp

/-- Extraction of the successful result of an operation, with a default
for the error case; used to name concrete results in witnesses. -/
def okOr {ε β : Type} (e : Except ε β) (d : β) : β :=
  match e with
  | .ok v => v
  | .error _ => d

/-- A concrete two-dimensional hypercomplex spectrum whose complex
layout is block interleave in every dimension. -/
def metaSpectrum : Spectrum Int :=
  { data := .cplxT ⟨2, fun _ => 2,
      fun idx => ((4 * idx 0 + 2 * idx 1 : Int), (4 * idx 0 + 2 * idx 1 + 1 : Int))⟩,
    domain_type := [.TIME, .FREQ],
    data_type := [.COMPLEX, .COMPLEX],
    sw := [1, 2],
    label := ["x", "y"],
    data_layout := fun _ _ => .BLOCK_INTERLEAVE }

/-- The result of transposing the concrete spectrum. -/
def metaSpectrumRes : Spectrum Int := okOr (transpose 0 1 true metaSpectrum) metaSpectrum

/-- Witness for claim C1 at a concrete spectrum. -/
theorem transpose_exchanges_dims_and_metadata_witness :
    TransposeMetaSpec metaSpectrum metaSpectrumRes 0 1 true :=
  transpose_exchanges_dims_and_metadata metaSpectrum metaSpectrumRes 0 1 true rfl

/-- Modelled from the spec wording of claim C2 (spec section 4.2, step
3), for comparison with the entry step the source performs: before the
physical swap the data would be decoded from BLOCK_INTERLEAVE real
storage into a true complex representation (split_block_to_complex),
and if the layout that the innermost dimension acquires after the swap
is SINGLE_INTERLEAVE, additionally re-encoded to that single-interleave
real form. -/
def claimedEntryDecode {α : Type} (before_layout1 after_layout1 : DataLayout)
    (d : TData α) : Except SpecErr (TData α) :=
  if before_layout1 ≠ .BLOCK_INTERLEAVE then .error .unsupportedLayout
  else
    match d with
    | .realT t =>
        match split_block_to_complex t with
        | .ok c => .ok (if after_layout1 = .SINGLE_INTERLEAVE
                        then .realT (interleave_block_to_single (combine_block_from_complex c))
                        else .cplxT c)
        | .error e => .error e
    | .cplxT _ => .error .dtypeMismatch

/-- The concrete complex-native tensor used for the claim C2 input. -/
def c2Tensor : Tensor (Int × Int) :=
  ⟨2, fun _ => 2, fun idx => ((4 * idx 0 + 2 * idx 1 : Int), (4 * idx 0 + 2 * idx 1 + 1 : Int))⟩

/-- A concrete spectrum in the innermost special case with a REAL outer
dimension, so that only the entry conversion of transpose runs. -/
def c2Spectrum : Spectrum Int :=
  { data := .cplxT c2Tensor,
    domain_type := [.FREQ, .FREQ],
    data_type := [.REAL, .COMPLEX],
    sw := [1, 2],
    label := ["x", "y"],
    data_layout := fun dt d =>
      if dt = .COMPLEX then (if d = 1 then .BLOCK_INTERLEAVE else .CONTIGUOUS)
      else .CONTIGUOUS }

/-- Observation of the storage kind of the data of a successful result:
some true for complex-native data, some false for real storage. -/
def probeKind (e : Except (SpecErr × Spectrum Int) (Spectrum Int)) : Option Bool :=
  match e with
  | .ok s =>
      match s.data with
      | .realT _ => some false
      | .cplxT _ => some true
  | .error _ => none

/-- Counterexample to claim C2 as stated: on the data the transpose
pipeline actually holds in the innermost special case (complex-native
storage), the decode-from-block step the claim describes cannot run at
all (split_block_to_complex needs real storage), while the entry step
the source performs succeeds; and the whole transpose, run on a
spectrum whose outgoing dimension is COMPLEX and incoming dimension
REAL (so no exit conversion runs), returns real block storage, not the
true complex representation the claimed pre-swap decode would leave.
The source encodes complex data into block storage on entry
(combine_block_from_complex); it does not decode block storage into
complex data. -/
theorem transpose_entry_decode_counterexample :
    claimedEntryDecode .BLOCK_INTERLEAVE .CONTIGUOUS (.cplxT c2Tensor)
      ≠ entryStep .BLOCK_INTERLEAVE .CONTIGUOUS (.cplxT c2Tensor)
    ∧ probeKind (transpose 0 1 true c2Spectrum) = some false := by
  constructor
  · intro h
    exact Except.noConfusion h
  · rfl

/-- Forward computation of a transpose in the innermost special case
with an incoming data type that is not COMPLEX: only the entry
conversion runs, encoding the complex-native data into block storage
(and optionally on to single interleave) before the physical swap. -/
theorem transpose_entry_only_eq {α : Type} (s : Spectrum α) (d0 d1 : Nat)
    (t : Tensor (α × α))
    (hord : d0 ≤ d1) (hnd : 1 < s.ndims) (hb : d1 < s.ndims)
    (hlast : s.ndims - 1 = d1)
    (hdt1 : s.data_type.getD d1 .REAL = .COMPLEX)
    (hdt0 : s.data_type.getD d0 .REAL ≠ .COMPLEX)
    (hbl1 : s.data_layout .COMPLEX d1 = .BLOCK_INTERLEAVE)
    (hdata : s.data = .cplxT t) :
    transpose d0 d1 true s = .ok (withData s d0 d1 (.realT (transposeT d0 d1
      (if s.data_layout (s.data_type.getD d0 .REAL) d1 = .SINGLE_INTERLEAVE
       then interleave_block_to_single (combine_block_from_complex t)
       else combine_block_from_complex t)))) := by
  unfold transpose
  rw [if_pos hnd]
  dsimp only
  have hmin : min d0 d1 = d0 := by omega
  have hmax : max d0 d1 = d1 := by omega
  rw [hmin, hmax, if_neg (by omega), if_pos ⟨rfl, hlast, hdt1⟩]
  unfold entryStep
  rw [hdt1, if_neg (not_not_intro hbl1), hdata]
  dsimp only
  rw [if_neg (fun hc => hdt0 hc.2.2)]
  rfl

/-- Claim C2 amended: in the innermost special case (with the incoming
data type not COMPLEX, isolating the entry conversion), the
complex-native data is encoded from its true complex representation
into BLOCK_INTERLEAVE real storage with combine_block_from_complex
before the physical swap, after the asserted BLOCK_INTERLEAVE layout
check; and if the layout that the innermost position will have after
the swap is SINGLE_INTERLEAVE, the block storage is additionally
re-encoded to single-interleave form. -/
theorem transpose_entry_encodes_block {α : Type} (s : Spectrum α) (d0 d1 : Nat)
    (t : Tensor (α × α))
    (hord : d0 ≤ d1) (hnd : 1 < s.ndims) (hb : d1 < s.ndims)
    (hlast : s.ndims - 1 = d1)
    (hdt1 : s.data_type.getD d1 .REAL = .COMPLEX)
    (hdt0 : s.data_type.getD d0 .REAL ≠ .COMPLEX)
    (hbl1 : s.data_layout .COMPLEX d1 = .BLOCK_INTERLEAVE)
    (hdata : s.data = .cplxT t) :
    transpose d0 d1 true s = .ok (withData s d0 d1 (.realT (transposeT d0 d1
      (if s.data_layout (s.data_type.getD d0 .REAL) d1 = .SINGLE_INTERLEAVE
       then interleave_block_to_single (combine_block_from_complex t)
       else combine_block_from_complex t)))) :=
  transpose_entry_only_eq s d0 d1 t hord hnd hb hlast hdt1 hdt0 hbl1 hdata

/-- Witness for the amended claim C2 at the concrete spectrum. -/
theorem transpose_entry_encodes_block_witness :
    c2Spectrum.data_type.getD 1 .REAL = .COMPLEX
    ∧ transpose 0 1 true c2Spectrum = .ok (withData c2Spectrum 0 1 (.realT (transposeT 0 1
      (if c2Spectrum.data_layout (c2Spectrum.data_type.getD 0 .REAL) 1 = .SINGLE_INTERLEAVE
       then interleave_block_to_single (combine_block_from_complex c2Tensor)
       else combine_block_from_complex c2Tensor)))) :=
  ⟨by decide,
    transpose_entry_encodes_block c2Spectrum 0 1 c2Tensor
      (by decide) (by decide) (by decide) (by decide) (by decide) (by decide)
      (by decide) rfl⟩

theorem TDEq_refl {α : Type} (d : TData α) : TDEq d d := by
  cases d <;> exact TEq.refl _

/-- Preconditions recovered from any successful transpose: more than one
dimension and the greater target dimension in range. -/
theorem transpose_ok_bounds {α : Type} (s s' : Spectrum α) (a b : Nat) (ic : Bool)
    (h : transpose a b ic s = .ok s') : 1 < s.ndims ∧ max a b < s.ndims := by
  unfold transpose at h
  by_cases hnd : 1 < s.ndims
  · rw [if_pos hnd] at h
    dsimp only at h
    by_cases hb : s.ndims ≤ max a b
    · rw [if_pos hb] at h
      exact Except.noConfusion h
    · exact ⟨hnd, by omega⟩
  · rw [if_neg hnd] at h
    exact Except.noConfusion h

/-- The unsupported-layout failure, for a sorted dimension pair. -/
theorem transpose_err_layout {α : Type} (s : Spectrum α) (d0 d1 : Nat)
    (hord : d0 ≤ d1) (hnd : 1 < s.ndims) (hb : d1 < s.ndims)
    (hlast : s.ndims - 1 = d1)
    (hdt1 : s.data_type.getD d1 .REAL = .COMPLEX)
    (hlay : s.data_layout .COMPLEX d1 ≠ .BLOCK_INTERLEAVE) :
    transpose d0 d1 true s = .error (.unsupportedLayout, s) := by
  unfold transpose
  rw [if_pos hnd]
  dsimp only
  have hmin : min d0 d1 = d0 := by omega
  have hmax : max d0 d1 = d1 := by omega
  rw [hmin, hmax, if_neg (by omega), if_pos ⟨rfl, hlast, hdt1⟩]
  unfold entryStep
  rw [hdt1, if_pos hlay]

/-- The entry conversion applied to real storage fails, because
combine_block_from_complex needs complex-native data. -/
theorem transpose_err_entry_realT {α : Type} (s : Spectrum α) (d0 d1 : Nat)
    (t : Tensor α)
    (hord : d0 ≤ d1) (hnd : 1 < s.ndims) (hb : d1 < s.ndims)
    (hlast : s.ndims - 1 = d1)
    (hdt1 : s.data_type.getD d1 .REAL = .COMPLEX)
    (hbl1 : s.data_layout .COMPLEX d1 = .BLOCK_INTERLEAVE)
    (hdata : s.data = .realT t) :
    transpose d0 d1 true s = .error (.dtypeMismatch, s) := by
  unfold transpose
  rw [if_pos hnd]
  dsimp only
  have hmin : min d0 d1 = d0 := by omega
  have hmax : max d0 d1 = d1 := by omega
  rw [hmin, hmax, if_neg (by omega), if_pos ⟨rfl, hlast, hdt1⟩]
  unfold entryStep
  rw [hdt1, if_neg (not_not_intro hbl1), hdata]

/-- The exit conversion applied to complex-native storage fails,
because split_block_to_complex needs real storage. -/
theorem transpose_err_exit_cplxT {α : Type} (s : Spectrum α) (d0 d1 : Nat)
    (t : Tensor (α × α))
    (hord : d0 ≤ d1) (hnd : 1 < s.ndims) (hb : d1 < s.ndims)
    (hlast : s.ndims - 1 = d1)
    (hdt1n : s.data_type.getD d1 .REAL ≠ .COMPLEX)
    (hdt0 : s.data_type.getD d0 .REAL = .COMPLEX)
    (hdata : s.data = .cplxT t) :
    transpose d0 d1 true s
      = .error (.dtypeMismatch, { s with data := .cplxT (transposeT d0 d1 t) }) := by
  unfold transpose
  rw [if_pos hnd]
  dsimp only
  have hmin : min d0 d1 = d0 := by omega
  have hmax : max d0 d1 = d1 := by omega
  rw [hmin, hmax, if_neg (by omega), if_neg (fun hc => hdt1n hc.2.2)]
  dsimp only
  rw [if_pos ⟨rfl, hlast, hdt0⟩, hdata]
  dsimp only [transposeTD, exitStep]

/-- Inversion of a successful transpose in the innermost special case
with only the exit conversion active (incoming COMPLEX, outgoing not):
the physically swapped real data, reordered from single interleave when
its previous layout asks for it, decodes successfully and becomes the
complex-native result. -/
theorem transpose_exit_only_inv {α : Type} (s s' : Spectrum α) (d0 d1 : Nat)
    (t : Tensor α)
    (hord : d0 ≤ d1) (hnd : 1 < s.ndims) (hb : d1 < s.ndims)
    (hlast : s.ndims - 1 = d1)
    (hdt1n : s.data_type.getD d1 .REAL ≠ .COMPLEX)
    (hdt0 : s.data_type.getD d0 .REAL = .COMPLEX)
    (hdata : s.data = .realT t)
    (h : transpose d0 d1 true s = .ok s') :
    ∃ c, split_block_to_complex
        (if s.data_layout .COMPLEX d0 = .SINGLE_INTERLEAVE
         then interleave_single_to_block (transposeT d0 d1 t)
         else transposeT d0 d1 t) = .ok c
      ∧ s' = withData s d0 d1 (.cplxT c) := by
  unfold transpose at h
  rw [if_pos hnd] at h
  dsimp only at h
  have hmin : min d0 d1 = d0 := by omega
  have hmax : max d0 d1 = d1 := by omega
  rw [hmin, hmax, if_neg (by omega), if_neg (fun hc => hdt1n hc.2.2)] at h
  dsimp only at h
  rw [if_pos ⟨rfl, hlast, hdt0⟩, hdata] at h
  dsimp only [transposeTD, exitStep] at h
  rw [hdt0] at h
  cases hsp : split_block_to_complex
      (if s.data_layout .COMPLEX d0 = .SINGLE_INTERLEAVE
       then interleave_single_to_block (transposeT d0 d1 t)
       else transposeT d0 d1 t) with
  | error e =>
      rw [hsp] at h
      exact Except.noConfusion h
  | ok c =>
      rw [hsp] at h
      injection h with h
      exact ⟨c, rfl, h.symm⟩

/-- Inversion of a successful transpose in the innermost special case
with both dimensions COMPLEX: the data is encoded to block storage (the
single-interleave entry re-encode cannot trigger, because the asserted
layout is block interleave), physically swapped, reordered from single
interleave when the layout of the outer dimension asks for it, and
decoded back to complex-native form. -/
theorem transpose_both_complex_inv {α : Type} (s s' : Spectrum α) (d0 d1 : Nat)
    (t : Tensor (α × α))
    (hord : d0 ≤ d1) (hnd : 1 < s.ndims) (hb : d1 < s.ndims)
    (hlast : s.ndims - 1 = d1)
    (hdt1 : s.data_type.getD d1 .REAL = .COMPLEX)
    (hdt0 : s.data_type.getD d0 .REAL = .COMPLEX)
    (hbl1 : s.data_layout .COMPLEX d1 = .BLOCK_INTERLEAVE)
    (hdata : s.data = .cplxT t)
    (h : transpose d0 d1 true s = .ok s') :
    ∃ c, split_block_to_complex
        (if s.data_layout .COMPLEX d0 = .SINGLE_INTERLEAVE
         then interleave_single_to_block (transposeT d0 d1 (combine_block_from_complex t))
         else transposeT d0 d1 (combine_block_from_complex t)) = .ok c
      ∧ s' = withData s d0 d1 (.cplxT c) := by
  unfold transpose at h
  rw [if_pos hnd] at h
  dsimp only at h
  have hmin : min d0 d1 = d0 := by omega
  have hmax : max d0 d1 = d1 := by omega
  rw [hmin, hmax, if_neg (by omega), if_pos ⟨rfl, hlast, hdt1⟩] at h
  unfold entryStep at h
  rw [hdt1, if_neg (not_not_intro hbl1), hdata] at h
  dsimp only at h
  rw [hdt0, hbl1] at h
  rw [if_neg (fun hq => DataLayout.noConfusion hq)] at h
  rw [if_pos ⟨rfl, hlast, rfl⟩] at h
  dsimp only [transposeTD, exitStep] at h
  cases hsp : split_block_to_complex
      (if s.data_layout .COMPLEX d0 = .SINGLE_INTERLEAVE
       then interleave_single_to_block (transposeT d0 d1 (combine_block_from_complex t))
       else transposeT d0 d1 (combine_block_from_complex t)) with
  | error e =>
      rw [hsp] at h
      exact Except.noConfusion h
  | ok c =>
      rw [hsp] at h
      injection h with h
      exact ⟨c, rfl, h.symm⟩

/-- Full state equality up to tensor extensionality: the data tensors
agree extensionally (same storage kind, rank, sizes and values on valid
indices) and every metadata component is equal. -/
def SpectrumEq {α : Type} (s t : Spectrum α) : Prop :=
  TDEq s.data t.data ∧ s.domain_type = t.domain_type ∧ s.data_type = t.data_type
    ∧ s.sw = t.sw ∧ s.label = t.label ∧ s.data_layout = t.data_layout

/-- A data_layout contract that never reports single interleave, the
hypothesis under which the double transpose is an involution. -/
def NoSingleLayout {α : Type} (s : Spectrum α) : Prop :=
  ∀ dt d, s.data_layout dt d ≠ .SINGLE_INTERLEAVE

theorem ndims_permuteOnly {α : Type} (s : Spectrum α) (d0 d1 : Nat) :
    (permuteOnly d0 d1 s).ndims = s.ndims :=
  ndims_withData s d0 d1 (transposeTD d0 d1 s.data)

/-- Involution in the branch where neither call runs a codec
conversion: the double pure permutation restores everything. -/
theorem involution_pure_case {α : Type} (s s' s'' : Spectrum α) (m0 m1 : Nat) (ic : Bool)
    (hord : m0 ≤ m1) (hnd : 1 < s.ndims) (hb : m1 < s.ndims)
    (hc1 : ¬(ic = true ∧ s.ndims - 1 = m1 ∧ s.data_type.getD m1 .REAL = .COMPLEX))
    (hc0 : ¬(ic = true ∧ s.ndims - 1 = m1 ∧ s.data_type.getD m0 .REAL = .COMPLEX))
    (h1 : transpose m0 m1 ic s = .ok s') (h2 : transpose m0 m1 ic s' = .ok s'') :
    SpectrumEq s'' s := by
  have hm0 : m0 < s.ndims := by omega
  rw [transpose_eq_pure s m0 m1 ic hord hnd hb hc1 hc0] at h1
  injection h1 with h1
  subst h1
  have hnd2 : 1 < (permuteOnly m0 m1 s).ndims := by
    rw [ndims_permuteOnly]
    exact hnd
  have hb2 : m1 < (permuteOnly m0 m1 s).ndims := by
    rw [ndims_permuteOnly]
    exact hb
  have hg1 : (permuteOnly m0 m1 s).data_type.getD m1 .REAL = s.data_type.getD m0 .REAL :=
    getD_withData_right s m0 m1 _ .REAL hm0 hb
  have hg0 : (permuteOnly m0 m1 s).data_type.getD m0 .REAL = s.data_type.getD m1 .REAL :=
    getD_withData_left s m0 m1 _ .REAL hm0 hb
  have hc1' : ¬(ic = true ∧ (permuteOnly m0 m1 s).ndims - 1 = m1
      ∧ (permuteOnly m0 m1 s).data_type.getD m1 .REAL = .COMPLEX) := by
    intro hc
    refine hc0 ⟨hc.1, ?_, ?_⟩
    · rw [← ndims_permuteOnly s m0 m1]
      exact hc.2.1
    · rw [← hg1]
      exact hc.2.2
  have hc0' : ¬(ic = true ∧ (permuteOnly m0 m1 s).ndims - 1 = m1
      ∧ (permuteOnly m0 m1 s).data_type.getD m0 .REAL = .COMPLEX) := by
    intro hc
    refine hc1 ⟨hc.1, ?_, ?_⟩
    · rw [← ndims_permuteOnly s m0 m1]
      exact hc.2.1
    · rw [← hg0]
      exact hc.2.2
  rw [transpose_eq_pure _ m0 m1 ic hord hnd2 hb2 hc1' hc0'] at h2
  injection h2 with h2
  subst h2
  refine ⟨?_, swapNth_swapNth _ _ _, swapNth_swapNth _ _ _,
    swapNth_swapNth _ _ _, swapNth_swapNth _ _ _, rfl⟩
  show TDEq (transposeTD m0 m1 (transposeTD m0 m1 s.data)) s.data
  rw [transposeTD_transposeTD]
  exact TDEq_refl _

/-- Claim C3 amended: a double transpose restores the spectrum (data up
to tensor extensionality, every metadata sequence exactly) whenever the
data_layout contract never reports SINGLE_INTERLEAVE, so that no
single-interleave re-encode runs.  The counterexample shows the
restriction is needed: with the single-interleave layout the code
consults on entry (the layout of the dimension arriving at the
innermost position) differing from the one it consults on exit (the
layout of the outgoing dimension at its old position), the conversions
of the two calls do not invert each other. -/
theorem transpose_involution_of_no_single {α : Type} (s s' s'' : Spectrum α)
    (a b : Nat) (ic : Bool)
    (hns : NoSingleLayout s) (hr : 0 < s.data.rank)
    (h1 : transpose a b ic s = .ok s') (h2 : transpose a b ic s' = .ok s'') :
    SpectrumEq s'' s := by
  rw [transpose_minmax] at h1 h2
  obtain ⟨hnd, hbmax⟩ := transpose_ok_bounds _ _ _ _ _ h1
  have hord : min a b ≤ max a b := by omega
  have hb : max a b < s.ndims := by omega
  have hm0 : min a b < s.ndims := by omega
  by_cases hsp : ic = true ∧ s.ndims - 1 = max a b
  case neg =>
    exact involution_pure_case s s' s'' (min a b) (max a b) ic hord hnd hb
      (fun hc => hsp ⟨hc.1, hc.2.1⟩) (fun hc => hsp ⟨hc.1, hc.2.1⟩) h1 h2
  case pos =>
    obtain ⟨hic, hlast⟩ := hsp
    subst hic
    by_cases h1C : s.data_type.getD (max a b) .REAL = .COMPLEX
    case pos =>
      by_cases hbl1 : s.data_layout .COMPLEX (max a b) = .BLOCK_INTERLEAVE
      case neg =>
        rw [transpose_err_layout s (min a b) (max a b) hord hnd hb hlast h1C hbl1] at h1
        exact Except.noConfusion h1
      case pos =>
        cases hdata : s.data with
        | realT t =>
            rw [transpose_err_entry_realT s (min a b) (max a b) t hord hnd hb hlast
              h1C hbl1 hdata] at h1
            exact Except.noConfusion h1
        | cplxT t =>
            have hrt : 0 < t.rank := by
              rw [hdata] at hr
              exact hr
            by_cases h0C : s.data_type.getD (min a b) .REAL = .COMPLEX
            case pos =>
              obtain ⟨c1, hsp1, hs'⟩ := transpose_both_complex_inv s s' (min a b) (max a b)
                t hord hnd hb hlast h1C h0C hbl1 hdata h1
              rw [if_neg (hns _ _)] at hsp1
              subst hs'
              have hnd2 : 1 < (withData s (min a b) (max a b) (.cplxT c1)).ndims := by
                rw [ndims_withData]
                exact hnd
              have hb2 : max a b < (withData s (min a b) (max a b) (.cplxT c1)).ndims := by
                rw [ndims_withData]
                exact hb
              have hlast2 : (withData s (min a b) (max a b) (.cplxT c1)).ndims - 1
                  = max a b := by
                rw [ndims_withData]
                exact hlast
              have hdt1' : (withData s (min a b) (max a b) (.cplxT c1)).data_type.getD
                  (max a b) .REAL = .COMPLEX := by
                rw [getD_withData_right s _ _ _ .REAL hm0 hb]
                exact h0C
              have hdt0' : (withData s (min a b) (max a b) (.cplxT c1)).data_type.getD
                  (min a b) .REAL = .COMPLEX := by
                rw [getD_withData_left s _ _ _ .REAL hm0 hb]
                exact h1C
              obtain ⟨c2, hsp2, hs''⟩ := transpose_both_complex_inv _ s'' (min a b)
                (max a b) c1 hord hnd2 hb2 hlast2 hdt1' hdt0' hbl1 rfl h2
              rw [data_layout_withData, if_neg (hns _ _)] at hsp2
              rw [combine_split _ _ hsp1, transposeT_transposeT] at hsp2
              obtain ⟨c3, hsp3, hteq⟩ := split_combine t hrt
              have hc23 : c3 = c2 := by
                have hq := hsp3.symm.trans hsp2
                injection hq
              subst hs''
              refine ⟨?_, swapNth_swapNth _ _ _, swapNth_swapNth _ _ _,
                swapNth_swapNth _ _ _, swapNth_swapNth _ _ _, rfl⟩
              show TDEq (.cplxT c2) s.data
              rw [hdata]
              show TEq c2 t
              rw [← hc23]
              exact hteq
            case neg =>
              rw [transpose_entry_only_eq s (min a b) (max a b) t hord hnd hb hlast
                h1C h0C hbl1 hdata, if_neg (hns _ _)] at h1
              injection h1 with h1
              subst h1
              have hnd2 : 1 < (withData s (min a b) (max a b)
                  (.realT (transposeT (min a b) (max a b)
                    (combine_block_from_complex t)))).ndims := by
                rw [ndims_withData]
                exact hnd
              have hb2 : max a b < (withData s (min a b) (max a b)
                  (.realT (transposeT (min a b) (max a b)
                    (combine_block_from_complex t)))).ndims := by
                rw [ndims_withData]
                exact hb
              have hlast2 : (withData s (min a b) (max a b)
                  (.realT (transposeT (min a b) (max a b)
                    (combine_block_from_complex t)))).ndims - 1 = max a b := by
                rw [ndims_withData]
                exact hlast
              have hdt1n' : (withData s (min a b) (max a b)
                  (.realT (transposeT (min a b) (max a b)
                    (combine_block_from_complex t)))).data_type.getD (max a b) .REAL
                  ≠ .COMPLEX := by
                rw [getD_withData_right s _ _ _ .REAL hm0 hb]
                exact h0C
              have hdt0' : (withData s (min a b) (max a b)
                  (.realT (transposeT (min a b) (max a b)
                    (combine_block_from_complex t)))).data_type.getD (min a b) .REAL
                  = .COMPLEX := by
                rw [getD_withData_left s _ _ _ .REAL hm0 hb]
                exact h1C
              obtain ⟨c2, hsp2, hs''⟩ := transpose_exit_only_inv _ s'' (min a b) (max a b)
                _ hord hnd2 hb2 hlast2 hdt1n' hdt0' rfl h2
              rw [data_layout_withData, if_neg (hns _ _), transposeT_transposeT] at hsp2
              obtain ⟨c3, hsp3, hteq⟩ := split_combine t hrt
              have hc23 : c3 = c2 := by
                have hq := hsp3.symm.trans hsp2
                injection hq
              subst hs''
              refine ⟨?_, swapNth_swapNth _ _ _, swapNth_swapNth _ _ _,
                swapNth_swapNth _ _ _, swapNth_swapNth _ _ _, rfl⟩
              show TDEq (.cplxT c2) s.data
              rw [hdata]
              show TEq c2 t
              rw [← hc23]
              exact hteq
    case neg =>
      by_cases h0C : s.data_type.getD (min a b) .REAL = .COMPLEX
      case pos =>
        cases hdata : s.data with
        | cplxT t =>
            rw [transpose_err_exit_cplxT s (min a b) (max a b) t hord hnd hb hlast
              h1C h0C hdata] at h1
            exact Except.noConfusion h1
        | realT t =>
            obtain ⟨c1, hsp1, hs'⟩ := transpose_exit_only_inv s s' (min a b) (max a b)
              t hord hnd hb hlast h1C h0C hdata h1
            rw [if_neg (hns _ _)] at hsp1
            subst hs'
            have hnd2 : 1 < (withData s (min a b) (max a b) (.cplxT c1)).ndims := by
              rw [ndims_withData]
              exact hnd
            have hb2 : max a b < (withData s (min a b) (max a b) (.cplxT c1)).ndims := by
              rw [ndims_withData]
              exact hb
            have hlast2 : (withData s (min a b) (max a b) (.cplxT c1)).ndims - 1
                = max a b := by
              rw [ndims_withData]
              exact hlast
            have hdt1' : (withData s (min a b) (max a b) (.cplxT c1)).data_type.getD
                (max a b) .REAL = .COMPLEX := by
              rw [getD_withData_right s _ _ _ .REAL hm0 hb]
              exact h0C
            have hdt0n' : (withData s (min a b) (max a b) (.cplxT c1)).data_type.getD
                (min a b) .REAL ≠ .COMPLEX := by
              rw [getD_withData_left s _ _ _ .REAL hm0 hb]
              exact h1C
            by_cases hbl1' : s.data_layout .COMPLEX (max a b) = .BLOCK_INTERLEAVE
            case neg =>
              rw [transpose_err_layout _ (min a b) (max a b) hord hnd2 hb2 hlast2
                hdt1' hbl1'] at h2
              exact Except.noConfusion h2
            case pos =>
              rw [transpose_entry_only_eq _ (min a b) (max a b) c1 hord hnd2 hb2 hlast2
                hdt1' hdt0n' hbl1' rfl] at h2
              rw [data_layout_withData, if_neg (hns _ _)] at h2
              injection h2 with h2
              subst h2
              refine ⟨?_, swapNth_swapNth _ _ _, swapNth_swapNth _ _ _,
                swapNth_swapNth _ _ _, swapNth_swapNth _ _ _, rfl⟩
              show TDEq (.realT (transposeT (min a b) (max a b)
                (combine_block_from_complex c1))) s.data
              rw [combine_split _ _ hsp1, transposeT_transposeT, hdata]
              exact TDEq_refl _
      case neg =>
        exact involution_pure_case s s' s'' (min a b) (max a b) true hord hnd hb
          (fun hc => h1C hc.2.2) (fun hc => h0C hc.2.2) h1 h2

/-- Observation of the stored value at the all-zero index of the data
of a successful result with complex-native storage. -/
def probeVal00 (e : Except (SpecErr × Spectrum Int) (Spectrum Int)) : Option (Int × Int) :=
  match e with
  | .ok s =>
      match s.data with
      | .cplxT t => some (t.val fun _ => 0)
      | .realT _ => none
  | .error _ => none

/-- A concrete two-by-two hypercomplex spectrum with the
characteristic layout the source comments describe: block interleave
for the innermost complex dimension and single interleave for the
outer complex dimension. -/
def singleLayoutSpectrum : Spectrum Int :=
  { data := .cplxT ⟨2, fun _ => 2,
      fun idx => ((4 * idx 0 + 2 * idx 1 : Int), (4 * idx 0 + 2 * idx 1 + 1 : Int))⟩,
    domain_type := [.TIME, .TIME],
    data_type := [.COMPLEX, .COMPLEX],
    sw := [1, 2],
    label := ["x", "y"],
    data_layout := fun dt d =>
      if dt = .COMPLEX then (if d = 1 then .BLOCK_INTERLEAVE else .SINGLE_INTERLEAVE)
      else .CONTIGUOUS }

/-- Counterexample to claim C3 as stated: on this spectrum both calls
of the double transpose succeed (the probe observes a successful
complex-native result), yet the stored value at the all-zero index is
(0, 2) where the original holds (0, 1): the data tensor is not
restored, even though every codec conversion involved is exact
reindexing.  The cause is the asymmetry of the source: the entry
re-encode consults the layout of the data type arriving at the
innermost dimension (after_layout1), while the exit decode consults
the layout of the data type that left the outer dimension
(before_layout0), so with single interleave at the outer dimension the
second call misreads the block-ordered axis as single-interleaved. -/
theorem transpose_involution_counterexample :
    probeVal00 ((transpose 0 1 true singleLayoutSpectrum).bind (transpose 0 1 true))
      = some (0, 2)
    ∧ probeVal00 (.ok singleLayoutSpectrum) = some (0, 1)
    ∧ ((0, 2) : Int × Int) ≠ ((0, 1) : Int × Int) := by
  refine ⟨rfl, rfl, by decide⟩

/-- A concrete two-by-two hypercomplex spectrum whose layout contract
is block interleave everywhere, satisfying NoSingleLayout. -/
def blockSpectrum : Spectrum Int :=
  { data := .cplxT ⟨2, fun _ => 2,
      fun idx => ((4 * idx 0 + 2 * idx 1 : Int), (4 * idx 0 + 2 * idx 1 + 1 : Int))⟩,
    domain_type := [.TIME, .FREQ],
    data_type := [.COMPLEX, .COMPLEX],
    sw := [1, 2],
    label := ["x", "y"],
    data_layout := fun _ _ => .BLOCK_INTERLEAVE }

/-- The result of the first transpose of the block-layout spectrum. -/
def blockSpectrum1 : Spectrum Int := okOr (transpose 0 1 true blockSpectrum) blockSpectrum

/-- The result of the second transpose of the block-layout spectrum. -/
def blockSpectrum2 : Spectrum Int := okOr (transpose 0 1 true blockSpectrum1) blockSpectrum

/-- Witness for the amended claim C3 at a concrete spectrum. -/
theorem transpose_involution_of_no_single_witness :
    NoSingleLayout blockSpectrum ∧ SpectrumEq blockSpectrum2 blockSpectrum :=
  ⟨fun _ _ h => DataLayout.noConfusion h,
    transpose_involution_of_no_single blockSpectrum blockSpectrum1 blockSpectrum2 0 1 true
      (fun _ _ h => DataLayout.noConfusion h) (by decide) rfl rfl⟩
